import Mathlib

/-! Verification of the CSV-to-Postgres upload service (`src/api/index.py`).

The Python source is shallowly embedded below:
* strings are modelled as `List Char` at the normalization level and as
  Lean `String` at the API level (`String.mk`/`String.data` mediate);
* byte payloads are `List Nat`, each entry one byte value;
* the Postgres catalog visible to the resolver is an association list from
  `(schema, table)` to the table's column list — the SQLAlchemy inspector
  (`has_table` / `get_columns`) is modelled as lookup in that list;
* `uuid.uuid4().hex[:8]` is an external source of randomness, modelled as an
  explicit `suffix` argument threaded to `choose_table_name_atomic`;
* the advisory lock `pg_advisory_xact_lock` serializes resolutions for a
  given key, which is modelled by letting a resolution be one atomic step
  over the catalog; the resolver itself performs no DDL, so it does not
  change the catalog.
-/

-- ----------------------------
-- Naming helpers (src/api/index.py lines 22-46)
-- ----------------------------

/-- Characters matched by the regex class `[a-z0-9]`. -/
def isLowerAlnum (c : Char) : Bool :=
  (decide (97 ≤ c.toNat) && decide (c.toNat ≤ 122)) ||
  (decide (48 ≤ c.toNat) && decide (c.toNat ≤ 57))

/-- Characters allowed in a produced identifier: `[a-z0-9_]`. -/
def goodChar (c : Char) : Bool :=
  isLowerAlnum c || c == '_'

/-- Python `str.strip()`: drop whitespace from both ends. -/
def pyStrip (l : List Char) : List Char :=
  ((l.dropWhile Char.isWhitespace).reverse.dropWhile Char.isWhitespace).reverse

/-- Python `str.lower()` (ASCII model). -/
def pyLower (l : List Char) : List Char :=
  l.map Char.toLower

/-- Replace every maximal run of characters satisfying `p` by the single
character `r`; `inRun` records whether the previous character was in a run.
This models `re.sub(r"[^a-z0-9]+", "_", s)` and `re.sub(r"_+", "_", s)`. -/
def replaceRunsAux (p : Char → Bool) (r : Char) (inRun : Bool) : List Char → List Char
  | [] => []
  | c :: rest =>
    if p c then
      if inRun then replaceRunsAux p r true rest
      else r :: replaceRunsAux p r true rest
    else c :: replaceRunsAux p r false rest

def replaceRuns (p : Char → Bool) (r : Char) (l : List Char) : List Char :=
  replaceRunsAux p r false l

/-- Python `str.strip(c)` for a single character `c`. -/
def stripChar (c : Char) (l : List Char) : List Char :=
  ((l.dropWhile (· == c)).reverse.dropWhile (· == c)).reverse

/-- Python `s[0].isdigit()` guarded by nonemptiness. -/
def headDigit : List Char → Bool
  | [] => false
  | c :: _ => c.isDigit

/-- The common tail of `slugify_table_name` and `normalize_header`:
regex substitution of non-alphanumeric runs, underscore collapse and trim,
empty fallback, and digit-led prefix. `fallback` and `pre` differ between
the table and column contexts. -/
def normalizeCore (fallback : List Char) (pre : Char) (l : List Char) : List Char :=
  let b3 := replaceRuns (fun c => !(isLowerAlnum c)) '_' l
  let b4 := stripChar '_' (replaceRuns (fun c => c == '_') '_' b3)
  let b5 := if b4.isEmpty then fallback else b4
  if headDigit b5 then pre :: '_' :: b5 else b5

/-- `normalize_header` (list level): strip, lower, strip leading `#`s,
then the common normalization with fallback `"col"` and prefix `c_`. -/
def normalizeHeaderL (h : List Char) : List Char :=
  normalizeCore ['c', 'o', 'l'] 'c' ((pyLower (pyStrip h)).dropWhile (· == '#'))

/-- Python `filename.rsplit(sep, 1)[-1]`: the part after the last `sep`. -/
def afterLastSep (sep : Char) (l : List Char) : List Char :=
  (l.reverse.takeWhile (· != sep)).reverse

/-- `re.sub(r"\.csv$", "", base, flags=re.IGNORECASE)`. -/
def stripCsvExt (l : List Char) : List Char :=
  if 4 ≤ l.length && (l.drop (l.length - 4)).map Char.toLower == ['.', 'c', 's', 'v']
  then l.take (l.length - 4) else l

/-- `slugify_table_name` (list level): drop path components, drop a
case-insensitive `.csv` extension, strip, lower, then the common
normalization with fallback `"uploaded_csv"` and prefix `t_`. -/
def slugifyTableNameL (filename : List Char) : List Char :=
  normalizeCore "uploaded_csv".data 't'
    (pyLower (pyStrip (stripCsvExt (afterLastSep '\\' (afterLastSep '/' filename)))))

def normalize_header (h : String) : String :=
  String.mk (normalizeHeaderL h.data)

def slugify_table_name (filename : String) : String :=
  String.mk (slugifyTableNameL filename.data)

/-- `normalize_header` also accepts `None` (returning `"col"`). -/
def normalize_header_opt : Option String → String
  | none => "col"
  | some h => normalize_header h

-- ----------------------------
-- Catalog model and resolver (src/api/index.py lines 103-148)
-- ----------------------------

/-- The destination store's table metadata: `(schema, table) ↦ columns`. -/
abbrev Catalog := List ((String × String) × List String)

/-- Modelled from the spec: the SQLAlchemy inspector's `has_table` /
`get_columns` pair is a pure query of the store's live metadata
(`table_exists_and_columns` in the source). -/
def table_exists_and_columns (cat : Catalog) (schema_name table_name : String) :
    Bool × List String :=
  match cat.find? (fun e => e.1 == (schema_name, table_name)) with
  | none => (false, [])
  | some e => (true, e.2)

def hasTable (cat : Catalog) (schema_name table_name : String) : Bool :=
  (table_exists_and_columns cat schema_name table_name).1

/-- `columns_match`: Python `set(existing) == set(incoming)`. -/
def columns_match (existing_cols incoming_cols : List String) : Bool :=
  existing_cols.all (fun c => incoming_cols.contains c) &&
  incoming_cols.all (fun c => existing_cols.contains c)

/-- `uuid.uuid4().hex[:8]` always yields 8 lowercase hex characters. -/
def isLowerHex8 (s : String) : Bool :=
  s.data.length == 8 &&
  s.data.all (fun c => c.isDigit || (decide (97 ≤ c.toNat) && decide (c.toNat ≤ 102)))

/-- `choose_table_name_atomic`. The advisory transaction lock makes the whole
resolution one atomic step over the catalog; `suffix` is the random draw
`uuid.uuid4().hex[:8]` made by this call. Returns `(final_name, decision)`.
The resolver performs no DDL: the catalog is read, never written. -/
def choose_table_name_atomic (cat : Catalog) (schema_name base_table_name : String)
    (incoming_cols : List String) (suffix : String) : String × String :=
  let q := table_exists_and_columns cat schema_name base_table_name
  if !q.1 then
    (base_table_name, "created_new_table")
  else if columns_match q.2 incoming_cols then
    (base_table_name, "matched_existing_table")
  else
    (base_table_name ++ "__" ++ suffix, "schema_mismatch_created_new_table")

-- ----------------------------
-- Byte decoding (src/api/index.py lines 49-55)
-- ----------------------------

/-- Is a byte a UTF-8 continuation byte (`0x80`-`0xBF`)? -/
def utf8Cont (n : Nat) : Bool :=
  decide (128 ≤ n) && decide (n < 192)

/-- Strict UTF-8 decoding, modelling Python `bytes.decode("utf-8")`:
rejects stray continuation bytes, truncated sequences, overlong encodings,
surrogates and code points above U+10FFFF. -/
def utf8DecodeList : List Nat → Option (List Char)
  | [] => some []
  | b1 :: rest =>
    if b1 < 128 then
      (utf8DecodeList rest).map (fun cs => Char.ofNat b1 :: cs)
    else if b1 < 192 then none
    else if b1 < 224 then
      match rest with
      | b2 :: rest2 =>
        if utf8Cont b2 then
          let cp := (b1 - 192) * 64 + (b2 - 128)
          if 128 ≤ cp then (utf8DecodeList rest2).map (fun cs => Char.ofNat cp :: cs)
          else none
        else none
      | [] => none
    else if b1 < 240 then
      match rest with
      | b2 :: b3 :: rest3 =>
        if utf8Cont b2 && utf8Cont b3 then
          let cp := (b1 - 224) * 4096 + (b2 - 128) * 64 + (b3 - 128)
          if 2048 ≤ cp && !(decide (55296 ≤ cp) && decide (cp < 57344)) then
            (utf8DecodeList rest3).map (fun cs => Char.ofNat cp :: cs)
          else none
        else none
      | _ => none
    else if b1 < 245 then
      match rest with
      | b2 :: b3 :: b4 :: rest4 =>
        if utf8Cont b2 && utf8Cont b3 && utf8Cont b4 then
          let cp := (b1 - 240) * 262144 + (b2 - 128) * 4096 + (b3 - 128) * 64 + (b4 - 128)
          if 65536 ≤ cp && cp ≤ 1114111 then
            (utf8DecodeList rest4).map (fun cs => Char.ofNat cp :: cs)
          else none
        else none
      | _ => none
    else none

/-- Python `bytes.decode("utf-8-sig")`: strip one BOM, then strict UTF-8. -/
def utf8SigDecode (b : List Nat) : Option (List Char) :=
  match b with
  | 239 :: 187 :: 191 :: rest => utf8DecodeList rest
  | _ => utf8DecodeList b

/-- Python `bytes.decode("latin-1")`: every byte maps to the code point of
the same value; this never fails. -/
def latin1Decode (b : List Nat) : Option (List Char) :=
  some (b.map (fun n => Char.ofNat (n % 256)))

/-- Python `bytes.decode("utf-8", errors="replace")`: like strict UTF-8 but
an undecodable position emits U+FFFD and one byte is skipped. Total. -/
def utf8ReplaceDecode : List Nat → List Char
  | [] => []
  | b1 :: rest =>
    if b1 < 128 then Char.ofNat b1 :: utf8ReplaceDecode rest
    else if b1 < 192 then Char.ofNat 65533 :: utf8ReplaceDecode rest
    else if b1 < 224 then
      match _hr : rest with
      | b2 :: rest2 =>
        if utf8Cont b2 then
          let cp := (b1 - 192) * 64 + (b2 - 128)
          if 128 ≤ cp then Char.ofNat cp :: utf8ReplaceDecode rest2
          else Char.ofNat 65533 :: utf8ReplaceDecode rest
        else Char.ofNat 65533 :: utf8ReplaceDecode rest
      | [] => [Char.ofNat 65533]
    else if b1 < 240 then
      match _hr : rest with
      | b2 :: b3 :: rest3 =>
        if utf8Cont b2 && utf8Cont b3 then
          let cp := (b1 - 224) * 4096 + (b2 - 128) * 64 + (b3 - 128)
          if 2048 ≤ cp && !(decide (55296 ≤ cp) && decide (cp < 57344)) then
            Char.ofNat cp :: utf8ReplaceDecode rest3
          else Char.ofNat 65533 :: utf8ReplaceDecode rest
        else Char.ofNat 65533 :: utf8ReplaceDecode rest
      | _ => Char.ofNat 65533 :: utf8ReplaceDecode rest.tail
    else if b1 < 245 then
      match _hr : rest with
      | b2 :: b3 :: b4 :: rest4 =>
        if utf8Cont b2 && utf8Cont b3 && utf8Cont b4 then
          let cp := (b1 - 240) * 262144 + (b2 - 128) * 4096 + (b3 - 128) * 64 + (b4 - 128)
          if 65536 ≤ cp && cp ≤ 1114111 then
            Char.ofNat cp :: utf8ReplaceDecode rest4
          else Char.ofNat 65533 :: utf8ReplaceDecode rest
        else Char.ofNat 65533 :: utf8ReplaceDecode rest
      | _ => Char.ofNat 65533 :: utf8ReplaceDecode rest.tail
    else Char.ofNat 65533 :: utf8ReplaceDecode rest
termination_by l => l.length
decreasing_by all_goals (simp_all [List.length_tail]; try omega)

/-- `decode_csv_bytes`: try `utf-8-sig`, `utf-8`, `latin-1` in order; fall
back to lossy `utf-8` with replacement as a last resort. -/
def decode_csv_bytes (file_bytes : List Nat) : List Char :=
  match utf8SigDecode file_bytes with
  | some s => s
  | none =>
    match utf8DecodeList file_bytes with
    | some s => s
    | none =>
      match latin1Decode file_bytes with
      | some s => s
      | none => utf8ReplaceDecode file_bytes

-- ----------------------------
-- CSV header extraction (src/api/index.py lines 58-65)
-- ----------------------------

/-- Finish the first CSV record: Python's `csv.reader` yields `[]` for a
blank line, otherwise the accumulated fields plus the current one. -/
def csvFinish (acc : List (List Char)) (cur : List Char) : List (List Char) :=
  if acc.isEmpty && cur.isEmpty then [] else acc ++ [cur]

/-- State machine for the first record of `csv.reader` (default dialect,
modelling the external `csv` module): fields split on `,`, a record ends at
an unquoted newline, `"` opens a quoted field at field start, `""` inside a
quoted field is an escaped quote. -/
def firstCsvRecordGo : List Char → Bool → List Char → List (List Char) → List (List Char)
  | [], _, cur, acc => csvFinish acc cur
  | c :: rest, true, cur, acc =>
    if c == '"' then
      match _hr : rest with
      | '"' :: rest2 => firstCsvRecordGo rest2 true (cur ++ ['"']) acc
      | _ => firstCsvRecordGo rest false cur acc
    else firstCsvRecordGo rest true (cur ++ [c]) acc
  | c :: rest, false, cur, acc =>
    if c == '\n' || c == '\r' then csvFinish acc cur
    else if c == ',' then firstCsvRecordGo rest false [] (acc ++ [cur])
    else if c == '"' && cur.isEmpty then firstCsvRecordGo rest true cur acc
    else firstCsvRecordGo rest false (cur ++ [c]) acc
termination_by l _ _ _ => l.length
decreasing_by all_goals (simp_all; try omega)

/-- `next(csv.reader(io.StringIO(text)))`: `none` models `StopIteration`
on empty input. -/
def firstCsvRecord (text : List Char) : Option (List (List Char)) :=
  if text.isEmpty then none else some (firstCsvRecordGo text false [] [])

/-- `extract_normalized_headers`: decode, read the first record, normalize
each raw header; `StopIteration` yields `[]`. -/
def extract_normalized_headers (file_bytes : List Nat) : List String :=
  let t := decode_csv_bytes file_bytes
  match firstCsvRecord t with
  | none => []
  | some raw_headers => raw_headers.map (fun h => normalize_header (String.mk h))

-- ----------------------------
-- Ingestion and the upload endpoint (src/api/index.py lines 155-237)
-- ----------------------------

/-- Modelled from the spec: the external ingestion library (`dlt`
`pipeline.run`) creates the destination table with the incoming columns when
it is absent; `replace` recreates it with the incoming columns, `append`
keeps an existing table's columns. The core never deletes tables. -/
def runPipeline (cat : Catalog) (schema_name table_name : String)
    (cols : List String) (write_disposition : String) : Catalog :=
  if write_disposition == "replace" then
    ((schema_name, table_name), cols) ::
      cat.filter (fun e => !(e.1 == (schema_name, table_name)))
  else if hasTable cat schema_name table_name then cat
  else ((schema_name, table_name), cols) :: cat

/-- The base-table-name selection on line 201 of the source:
`normalize_header(table) if table else slugify_table_name(file.filename)`
(`None` and `""` are both falsy). -/
def chooseBaseName (table : Option String) (filename : String) : String :=
  match table with
  | some t => if t = "" then slugify_table_name filename else normalize_header t
  | none => slugify_table_name filename

/-- The successful response payload of `/load-csv`. -/
structure OkResponse where
  message : String
  dataset : String
  base_table : String
  final_table : String
  decision : String
  mode : String
  columns : List String
deriving Repr, DecidableEq

/-- The `/load-csv` endpoint: validation, base-name selection, atomic
resolution, then ingestion. Errors are `(status, detail)` pairs; the
returned catalog is the store state after the request. `suffix` is the
random draw used by the resolver if it reaches the mismatch branch. -/
def load_csv (cat : Catalog) (filename : Option String) (content : List Nat)
    (mode : String) (table : Option String) (db : String) (suffix : String) :
    Except (Nat × String) OkResponse × Catalog :=
  match filename with
  | none => (Except.error (400, "Please upload a .csv file"), cat)
  | some fn =>
    if fn = "" || !(List.isSuffixOf ".csv".data (pyLower fn.data)) then
      (Except.error (400, "Please upload a .csv file"), cat)
    else if content.isEmpty then
      (Except.error (400, "Empty file"), cat)
    else
      let incoming_cols := extract_normalized_headers content
      if incoming_cols.isEmpty then
        (Except.error (400, "CSV has no header row"), cat)
      else
        let base_table_name := chooseBaseName table fn
        let schema_name := normalize_header db
        let res := choose_table_name_atomic cat schema_name base_table_name incoming_cols suffix
        let write_disposition := if mode = "replace" then "replace" else "append"
        let cat2 := runPipeline cat schema_name res.1 incoming_cols write_disposition
        (Except.ok ⟨"Loaded successfully", schema_name, base_table_name, res.1, res.2,
          mode, incoming_cols⟩, cat2)

-- ----------------------------
-- Concurrency harness for the resolver
-- ----------------------------

/-- Modelled from the spec: each upload is an independent unit of work; its
resolution is one atomic step (the advisory lock serializes resolutions for
one `(schema, base)` key), and its ingestion — which actually creates the
table — runs after the lock is released. -/
inductive RState where
  | initial
  | resolved (finalName decision : String)
  | done (decision : String)
deriving Repr, DecidableEq

/-- One scheduler step: request `i` performs its resolution (if still
`initial`) or its ingestion (if `resolved`). All requests share the same
`(schema, base, cols, write_disposition)`; request `i` would draw random
suffix `suffixes i`. -/
def stepEvent (schema base : String) (cols : List String) (wd : String)
    (suffixes : Nat → String) (st : Catalog × List RState) (ev : Nat × Bool) :
    Catalog × List RState :=
  let (cat, reqs) := st
  let (i, isResolve) := ev
  match reqs.get? i with
  | some RState.initial =>
    if isResolve then
      let res := choose_table_name_atomic cat schema base cols (suffixes i)
      (cat, reqs.set i (RState.resolved res.1 res.2))
    else (cat, reqs)
  | some (RState.resolved finalName decision) =>
    if isResolve then (cat, reqs)
    else (runPipeline cat schema finalName cols wd, reqs.set i (RState.done decision))
  | _ => (cat, reqs)

/-- Run a schedule of events (`(request index, is-resolution?)`). -/
def runSchedule (schema base : String) (cols : List String) (wd : String)
    (suffixes : Nat → String) (cat : Catalog) (reqs : List RState)
    (events : List (Nat × Bool)) : Catalog × List RState :=
  events.foldl (stepEvent schema base cols wd suffixes) (cat, reqs)

/-- The decision of a request's final state, if it reached one. -/
def decisionOf : RState → Option String
  | RState.initial => none
  | RState.resolved _ d => some d
  | RState.done d => some d

/-- The fully serialized execution: each request resolves and then ingests
before the next request starts. Returns the decisions in order. -/
def serializedRun (schema base : String) (cols : List String) (wd : String) :
    Catalog → Nat → (Nat → String) → List String
  | _, 0, _ => []
  | cat, Nat.succ n, suffixes =>
    let res := choose_table_name_atomic cat schema base cols (suffixes 0)
    let cat2 := runPipeline cat schema res.1 cols wd
    res.2 :: serializedRun schema base cols wd cat2 n (fun i => suffixes (i + 1))

-- ----------------------------
-- Predicates used by the claim statements
-- ----------------------------

/-- A string produced by the normalizers: non-empty, only `[a-z0-9_]`
characters, not digit-led, no leading/trailing underscore, and no two
adjacent underscores. -/
structure Normalized (l : List Char) : Prop where
  nonempty : l ≠ []
  chars : ∀ c ∈ l, goodChar c = true
  headNotDigit : headDigit l = false
  headNotUS : ∀ d, l.head? = some d → d ≠ '_'
  lastNotUS : ∀ d, l.getLast? = some d → d ≠ '_'
  noDouble : List.Chain' (fun x y => x ≠ '_' ∨ y ≠ '_') l

/-- The spec's Identifier data type: non-empty, characters in `[a-z0-9_]`,
not starting with a digit. -/
def validIdentifier (s : String) : Prop :=
  s.data ≠ [] ∧ (∀ c ∈ s.data, goodChar c = true) ∧ headDigit s.data = false

/-- The endpoint's filename rejection condition: missing filename, empty
filename, or a filename whose lower-casing does not end in `.csv`. -/
def badFilename : Option String → Bool
  | none => true
  | some f => f = "" || !(List.isSuffixOf ".csv".data (pyLower f.data))

-- ----------------------------
-- Character-level facts
-- ----------------------------

theorem goodChar_toNat {c : Char} (h : goodChar c = true) :
    97 ≤ c.toNat ∧ c.toNat ≤ 122 ∨ 48 ≤ c.toNat ∧ c.toNat ≤ 57 ∨ c.toNat = 95 := by
  simp only [goodChar, isLowerAlnum, Bool.or_eq_true, Bool.and_eq_true,
    decide_eq_true_eq, beq_iff_eq] at h
  rcases h with (h | h) | h
  · exact Or.inl h
  · exact Or.inr (Or.inl h)
  · subst h; exact Or.inr (Or.inr rfl)

theorem toLower_eq_self {c : Char} (h : goodChar c = true) : c.toLower = c := by
  have hn := goodChar_toNat h
  unfold Char.toLower
  rw [if_neg (by omega)]

theorem not_whitespace_of_goodChar {c : Char} (h : goodChar c = true) :
    c.isWhitespace = false := by
  have hn := goodChar_toNat h
  simp only [Char.isWhitespace, Bool.or_eq_false_iff, decide_eq_false_iff_not]
  refine ⟨⟨⟨?_, ?_⟩, ?_⟩, ?_⟩ <;> (intro he; subst he; revert hn; decide)

theorem ne_of_goodChar {c : Char} (h : goodChar c = true) {d : Char}
    (hd : d.toNat < 48 ∨ 57 < d.toNat ∧ d.toNat < 95 ∨ 95 < d.toNat ∧ d.toNat < 97 ∨
      122 < d.toNat) : c ≠ d := by
  have hn := goodChar_toNat h
  intro he
  subst he
  omega

theorem isLowerAlnum_of_goodChar {c : Char} (h : goodChar c = true) (hus : c ≠ '_') :
    isLowerAlnum c = true := by
  simp only [goodChar, Bool.or_eq_true, beq_iff_eq] at h
  rcases h with h | h
  · exact h
  · exact absurd h hus

-- ----------------------------
-- Generic list lemmas
-- ----------------------------

theorem dropWhile_eq_self_of_not {p : Char → Bool} {l : List Char}
    (h : ∀ c ∈ l, p c = false) : l.dropWhile p = l := by
  cases l with
  | nil => rfl
  | cons a t => simp [List.dropWhile_cons, h a (List.mem_cons_self a t)]

theorem map_eq_self_of {f : Char → Char} {l : List Char} (h : ∀ c ∈ l, f c = c) :
    l.map f = l := by
  induction l with
  | nil => rfl
  | cons a t ih =>
    simp only [List.map_cons, h a (List.mem_cons_self a t)]
    rw [ih (fun c hc => h c (List.mem_cons_of_mem a hc))]

theorem head?_dropWhile {p : Char → Bool} {l : List Char} {d : Char}
    (h : (l.dropWhile p).head? = some d) : p d = false := by
  induction l with
  | nil => simp [List.dropWhile] at h
  | cons a t ih =>
    rw [List.dropWhile_cons] at h
    by_cases hp : p a = true
    · rw [if_pos hp] at h
      exact ih h
    · rw [if_neg hp] at h
      simp only [List.head?_cons, Option.some.injEq] at h
      subst h
      exact Bool.not_eq_true _ ▸ hp

theorem chain'_imp_mem {α : Type} {R S : α → α → Prop} :
    ∀ {l : List α}, List.Chain' R l → (∀ x ∈ l, ∀ y ∈ l, R x y → S x y) →
      List.Chain' S l := by
  intro l
  induction l with
  | nil => intro _ _; simp
  | cons a t ih =>
    intro h himp
    rw [List.chain'_cons'] at h ⊢
    refine ⟨?_, ih h.2 (fun x hx y hy => himp x (List.mem_cons_of_mem a hx)
      y (List.mem_cons_of_mem a hy))⟩
    intro y hy
    have hyt : y ∈ t := List.mem_of_mem_head? hy
    exact himp a (List.mem_cons_self a t) y (List.mem_cons_of_mem a hyt) (h.1 y hy)

-- ----------------------------
-- replaceRuns lemmas
-- ----------------------------

theorem mem_replaceRunsAux {p : Char → Bool} {r : Char} {l : List Char} :
    ∀ {b : Bool} {c : Char}, c ∈ replaceRunsAux p r b l → c = r ∨ (p c = false ∧ c ∈ l) := by
  induction l with
  | nil => intro b c hc; simp [replaceRunsAux] at hc
  | cons a t ih =>
    intro b c hc
    rw [replaceRunsAux] at hc
    by_cases hp : p a = true
    · rw [if_pos hp] at hc
      cases b with
      | true =>
        rcases ih hc with h | h
        · exact Or.inl h
        · exact Or.inr ⟨h.1, List.mem_cons_of_mem a h.2⟩
      | false =>
        rcases List.mem_cons.mp hc with h | h
        · exact Or.inl h
        · rcases ih h with h2 | h2
          · exact Or.inl h2
          · exact Or.inr ⟨h2.1, List.mem_cons_of_mem a h2.2⟩
    · rw [if_neg hp] at hc
      rcases List.mem_cons.mp hc with h | h
      · subst h
        exact Or.inr ⟨Bool.not_eq_true _ ▸ hp, List.mem_cons_self _ _⟩
      · rcases ih h with h2 | h2
        · exact Or.inl h2
        · exact Or.inr ⟨h2.1, List.mem_cons_of_mem a h2.2⟩

theorem head?_replaceRunsAux_true {p : Char → Bool} {r : Char} {l : List Char} {d : Char}
    (h : (replaceRunsAux p r true l).head? = some d) : p d = false := by
  induction l with
  | nil => simp [replaceRunsAux] at h
  | cons a t ih =>
    rw [replaceRunsAux] at h
    by_cases hp : p a = true
    · rw [if_pos hp] at h
      exact ih h
    · rw [if_neg hp] at h
      simp only [List.head?_cons, Option.some.injEq] at h
      subst h
      exact Bool.not_eq_true _ ▸ hp

theorem chain'_replaceRunsAux {p : Char → Bool} {r : Char} (hr : p r = true) {l : List Char} :
    ∀ {b : Bool}, List.Chain' (fun x y => x ≠ r ∨ y ≠ r) (replaceRunsAux p r b l) := by
  induction l with
  | nil => intro b; simp [replaceRunsAux]
  | cons a t ih =>
    intro b
    rw [replaceRunsAux]
    by_cases hp : p a = true
    · rw [if_pos hp]
      cases b with
      | true => exact ih
      | false =>
        show List.Chain' (fun x y => x ≠ r ∨ y ≠ r) (r :: replaceRunsAux p r true t)
        rw [List.chain'_cons']
        refine ⟨?_, ih⟩
        intro y hy
        right
        intro hyr
        subst hyr
        have h2 := head?_replaceRunsAux_true hy
        rw [hr] at h2
        exact absurd h2 (by simp)
    · rw [if_neg hp]
      rw [List.chain'_cons']
      refine ⟨?_, ih⟩
      intro y hy
      left
      intro har
      subst har
      exact hp hr

theorem replaceRunsAux_true_eq_false {p : Char → Bool} {r : Char} {t : List Char}
    (h : ∀ d, t.head? = some d → p d = false) :
    replaceRunsAux p r true t = replaceRunsAux p r false t := by
  cases t with
  | nil => rfl
  | cons d t' =>
    have hd := h d rfl
    rw [replaceRunsAux, replaceRunsAux, if_neg, if_neg] <;> simp [hd]

theorem replaceRunsAux_eq_self {p : Char → Bool} {r : Char}
    {l : List Char}
    (hchain : List.Chain' (fun x y => p x = false ∨ p y = false) l)
    (hall : ∀ c ∈ l, p c = true → c = r) :
    replaceRunsAux p r false l = l := by
  induction l with
  | nil => rfl
  | cons a t ih =>
    rw [List.chain'_cons'] at hchain
    rw [replaceRunsAux]
    by_cases hp : p a = true
    · rw [if_pos hp]
      have ha : a = r := hall a (List.mem_cons_self a t) hp
      have hhead : ∀ d, t.head? = some d → p d = false := by
        intro d hd
        rcases hchain.1 d hd with h | h
        · simp [hp] at h
        · exact h
      rw [replaceRunsAux_true_eq_false hhead,
        ih hchain.2 (fun c hc hpc => hall c (List.mem_cons_of_mem a hc) hpc), ha]
      simp
    · rw [if_neg hp]
      rw [ih hchain.2 (fun c hc hpc => hall c (List.mem_cons_of_mem a hc) hpc)]

-- ----------------------------
-- stripChar lemmas
-- ----------------------------

theorem mem_stripChar {c : Char} {l : List Char} {x : Char} (h : x ∈ stripChar c l) :
    x ∈ l := by
  unfold stripChar at h
  rw [List.mem_reverse] at h
  have h2 := (List.dropWhile_suffix (fun d => d == c)).sublist.subset h
  rw [List.mem_reverse] at h2
  exact (List.dropWhile_suffix (fun d => d == c)).sublist.subset h2

theorem stripChar_head? {c : Char} {l : List Char} {d : Char}
    (h : (stripChar c l).head? = some d) : d ≠ c := by
  unfold stripChar at h
  rw [List.head?_reverse] at h
  have hsuf : ((l.dropWhile (fun x => x == c)).reverse.dropWhile (fun x => x == c)) <:+
      (l.dropWhile (fun x => x == c)).reverse := List.dropWhile_suffix _
  obtain ⟨s, hs⟩ := hsuf
  have hX : ((l.dropWhile (fun x => x == c)).reverse).getLast? = some d := by
    rw [← hs, List.getLast?_append, h]
    rfl
  rw [List.getLast?_reverse] at hX
  simpa using head?_dropWhile hX

theorem stripChar_getLast? {c : Char} {l : List Char} {d : Char}
    (h : (stripChar c l).getLast? = some d) : d ≠ c := by
  unfold stripChar at h
  rw [List.getLast?_reverse] at h
  have h4 := head?_dropWhile h
  simpa using h4

theorem chain'_stripChar {c : Char} {R : Char → Char → Prop}
    (hsym : ∀ x y, R x y → R y x) {l : List Char}
    (h : List.Chain' R l) : List.Chain' R (stripChar c l) := by
  unfold stripChar
  have h1 : List.Chain' R (l.dropWhile (fun d => d == c)) :=
    h.suffix (List.dropWhile_suffix _)
  have h2 : List.Chain' R ((l.dropWhile (fun d => d == c)).reverse) := by
    rw [List.chain'_reverse]
    exact h1.imp (fun a b hab => hsym a b hab)
  have h3 := h2.suffix (List.dropWhile_suffix (fun d => d == c))
  rw [List.chain'_reverse]
  exact h3.imp (fun a b hab => hsym a b hab)

theorem stripChar_eq_self {c : Char} {l : List Char}
    (hh : ∀ d, l.head? = some d → d ≠ c) (hl : ∀ d, l.getLast? = some d → d ≠ c) :
    stripChar c l = l := by
  unfold stripChar
  have h1 : l.dropWhile (fun d => d == c) = l := by
    cases l with
    | nil => rfl
    | cons a t =>
      have := hh a rfl
      simp [List.dropWhile_cons, this]
  rw [h1]
  have h2 : l.reverse.dropWhile (fun d => d == c) = l.reverse := by
    cases hrev : l.reverse with
    | nil => rfl
    | cons a t =>
      have ha : l.getLast? = some a := by
        rw [← List.head?_reverse, hrev]
        rfl
      have := hl a ha
      simp [List.dropWhile_cons, this]
  rw [h2, List.reverse_reverse]

-- ----------------------------
-- The normalization invariant
-- ----------------------------

theorem normalized_normalizeCore {fb : List Char} {pre : Char} (l : List Char)
    (hfb : Normalized fb) (hpre : goodChar pre = true) (hpred : pre.isDigit = false)
    (hpreUS : pre ≠ '_') :
    Normalized (normalizeCore fb pre l) := by
  simp only [normalizeCore]
  set b3 := replaceRuns (fun c => !(isLowerAlnum c)) '_' l with hb3
  set b4 := stripChar '_' (replaceRuns (fun c => c == '_') '_' b3) with hb4
  have hchars4 : ∀ c ∈ b4, goodChar c = true := by
    intro c hc
    have hc2 := mem_stripChar hc
    rcases mem_replaceRunsAux hc2 with h | h
    · subst h; decide
    · rcases mem_replaceRunsAux h.2 with h2 | h2
      · subst h2; decide
      · simp only [goodChar, Bool.or_eq_true]
        left
        have := h2.1
        simp only [Bool.not_eq_false'] at this
        exact this
  have hnd4 : List.Chain' (fun x y => x ≠ '_' ∨ y ≠ '_') b4 := by
    apply chain'_stripChar (fun x y hxy => hxy.symm)
    exact chain'_replaceRunsAux (by decide)
  have hh4 : ∀ d, b4.head? = some d → d ≠ '_' := fun d hd => stripChar_head? hd
  have hl4 : ∀ d, b4.getLast? = some d → d ≠ '_' := fun d hd => stripChar_getLast? hd
  by_cases hemp : b4.isEmpty = true
  · rw [if_pos hemp]
    rw [if_neg (by rw [hfb.headNotDigit]; exact Bool.false_ne_true)]
    exact hfb
  · rw [if_neg hemp]
    have hne : b4 ≠ [] := by
      intro hcon
      rw [hcon] at hemp
      exact hemp rfl
    by_cases hd4 : headDigit b4 = true
    · rw [if_pos hd4]
      constructor
      · exact List.cons_ne_nil _ _
      · intro c hc
        rcases List.mem_cons.mp hc with h | h
        · subst h; exact hpre
        · rcases List.mem_cons.mp h with h2 | h2
          · subst h2; decide
          · exact hchars4 c h2
      · show pre.isDigit = false
        exact hpred
      · intro d hd
        simp only [List.head?_cons, Option.some.injEq] at hd
        subst hd
        exact hpreUS
      · intro d hd
        have heq : (pre :: '_' :: b4) = [pre, '_'] ++ b4 := rfl
        rw [heq, List.getLast?_append] at hd
        have hsome : b4.getLast?.isSome := List.getLast?_isSome.mpr hne
        obtain ⟨y, hy⟩ := Option.isSome_iff_exists.mp hsome
        rw [hy] at hd
        have hyd : y = d := by simpa using hd
        subst hyd
        exact hl4 _ hy
      · rw [List.chain'_cons]
        refine ⟨Or.inl hpreUS, ?_⟩
        rw [List.chain'_cons']
        exact ⟨fun y hy => Or.inr (hh4 y hy), hnd4⟩
    · rw [if_neg hd4]
      exact ⟨hne, hchars4, Bool.not_eq_true _ ▸ hd4, hh4, hl4, hnd4⟩

theorem normalizeCore_eq_self {fb : List Char} {pre : Char} {l : List Char}
    (h : Normalized l) : normalizeCore fb pre l = l := by
  simp only [normalizeCore]
  have h3 : replaceRuns (fun c => !(isLowerAlnum c)) '_' l = l := by
    apply replaceRunsAux_eq_self
    · apply chain'_imp_mem h.noDouble
      intro x hx y hy hxy
      rcases hxy with hx2 | hy2
      · left
        simp only [Bool.not_eq_false']
        exact isLowerAlnum_of_goodChar (h.chars x hx) hx2
      · right
        simp only [Bool.not_eq_false']
        exact isLowerAlnum_of_goodChar (h.chars y hy) hy2
    · intro c hc hpc
      simp only [Bool.not_eq_true'] at hpc
      have := h.chars c hc
      simp only [goodChar, hpc, Bool.false_or, beq_iff_eq] at this
      exact this
  rw [h3]
  have h4 : replaceRuns (fun c => c == '_') '_' l = l := by
    apply replaceRunsAux_eq_self
    · exact h.noDouble.imp (fun a b hab =>
        hab.imp (fun ha => by simpa using ha) (fun hb => by simpa using hb))
    · intro c _ hpc
      simpa using hpc
  rw [h4]
  rw [stripChar_eq_self h.headNotUS h.lastNotUS]
  have hemp : l.isEmpty = false := by
    cases l with
    | nil => exact absurd rfl h.nonempty
    | cons a t => rfl
  have h5 : (if l.isEmpty = true then fb else l) = l :=
    if_neg (by rw [hemp]; exact Bool.false_ne_true)
  rw [h5]
  exact if_neg (by rw [h.headNotDigit]; exact Bool.false_ne_true)

-- ----------------------------
-- Normalizer invariants and idempotence (list level)
-- ----------------------------

theorem normalized_col : Normalized ['c', 'o', 'l'] := by
  refine ⟨by decide, by decide, by decide, by decide, by decide, ?_⟩
  simp [List.chain'_cons, List.chain'_singleton]

theorem normalized_uploaded_csv : Normalized "uploaded_csv".data := by
  refine ⟨by decide, by decide, by decide, by decide, by decide, ?_⟩
  show List.Chain' _ ['u', 'p', 'l', 'o', 'a', 'd', 'e', 'd', '_', 'c', 's', 'v']
  simp [List.chain'_cons, List.chain'_singleton]

theorem normalized_normalizeHeaderL (h : List Char) : Normalized (normalizeHeaderL h) :=
  normalized_normalizeCore _ normalized_col (by decide) (by decide) (by decide)

theorem normalized_slugifyTableNameL (f : List Char) : Normalized (slugifyTableNameL f) :=
  normalized_normalizeCore _ normalized_uploaded_csv (by decide) (by decide) (by decide)

theorem pyStrip_eq_self {l : List Char} (h : ∀ c ∈ l, goodChar c = true) :
    pyStrip l = l := by
  unfold pyStrip
  rw [dropWhile_eq_self_of_not (fun c hc => not_whitespace_of_goodChar (h c hc)),
    dropWhile_eq_self_of_not
      (fun c hc => not_whitespace_of_goodChar (h c (List.mem_reverse.mp hc))),
    List.reverse_reverse]

theorem pyLower_eq_self {l : List Char} (h : ∀ c ∈ l, goodChar c = true) :
    pyLower l = l :=
  map_eq_self_of (fun c hc => toLower_eq_self (h c hc))

theorem dropHash_eq_self {l : List Char} (h : ∀ c ∈ l, goodChar c = true) :
    l.dropWhile (· == '#') = l :=
  dropWhile_eq_self_of_not (fun c hc => by
    have hne := ne_of_goodChar (h c hc)
      (by decide : ('#').toNat < 48 ∨ 57 < ('#').toNat ∧ ('#').toNat < 95 ∨
        95 < ('#').toNat ∧ ('#').toNat < 97 ∨ 122 < ('#').toNat)
    simpa using hne)

theorem normalizeHeaderL_eq_self {l : List Char} (hn : Normalized l) :
    normalizeHeaderL l = l := by
  unfold normalizeHeaderL
  rw [pyStrip_eq_self hn.chars, pyLower_eq_self hn.chars, dropHash_eq_self hn.chars]
  exact normalizeCore_eq_self hn

theorem afterLastSep_eq_self {sep : Char} {l : List Char}
    (h : ∀ c ∈ l, (c == sep) = false) : afterLastSep sep l = l := by
  unfold afterLastSep
  rw [List.takeWhile_eq_self_iff.mpr
    (fun x hx => by simp [bne, h x (List.mem_reverse.mp hx)]), List.reverse_reverse]

theorem stripCsvExt_eq_self {l : List Char} (h : ∀ c ∈ l, goodChar c = true) :
    stripCsvExt l = l := by
  unfold stripCsvExt
  rw [if_neg]
  intro hcond
  rw [Bool.and_eq_true] at hcond
  have hmap := eq_of_beq hcond.2
  have hdot : '.' ∈ (l.drop (l.length - 4)).map Char.toLower := by
    rw [hmap]
    exact List.mem_cons_self _ _
  obtain ⟨c, hc, hlc⟩ := List.mem_map.mp hdot
  have hcl : c ∈ l := List.drop_subset _ l hc
  rw [toLower_eq_self (h c hcl)] at hlc
  have hgc := h c hcl
  rw [hlc] at hgc
  revert hgc
  decide

theorem slugifyTableNameL_eq_self {l : List Char} (hn : Normalized l) :
    slugifyTableNameL l = l := by
  unfold slugifyTableNameL
  have hslash : ∀ c ∈ l, (c == '/') = false := fun c hc => by
    have := ne_of_goodChar (hn.chars c hc)
      (by decide : ('/').toNat < 48 ∨ 57 < ('/').toNat ∧ ('/').toNat < 95 ∨
        95 < ('/').toNat ∧ ('/').toNat < 97 ∨ 122 < ('/').toNat)
    simpa using this
  have hback : ∀ c ∈ l, (c == '\\') = false := fun c hc => by
    have := ne_of_goodChar (hn.chars c hc)
      (by decide : ('\\').toNat < 48 ∨ 57 < ('\\').toNat ∧ ('\\').toNat < 95 ∨
        95 < ('\\').toNat ∧ ('\\').toNat < 97 ∨ 122 < ('\\').toNat)
    simpa using this
  rw [afterLastSep_eq_self hslash, afterLastSep_eq_self hback,
    stripCsvExt_eq_self hn.chars, pyStrip_eq_self hn.chars, pyLower_eq_self hn.chars]
  exact normalizeCore_eq_self hn

-- ----------------------------
-- String-level bridges
-- ----------------------------

theorem string_data_mk (l : List Char) : (String.mk l).data = l := rfl

theorem normalize_header_mk (x : String) :
    normalize_header x = String.mk (normalizeHeaderL x.data) := rfl

theorem slugify_table_name_mk (x : String) :
    slugify_table_name x = String.mk (slugifyTableNameL x.data) := rfl

-- ----------------------------
-- Claim theorems: C6, C7
-- ----------------------------

/-- Claim C6: for every string `x`, `normalize_header` is idempotent, and
`slugify_table_name` applied to its own output returns that output
unchanged. -/
theorem c6_normalization_idempotent (x : String) :
    normalize_header (normalize_header x) = normalize_header x ∧
    slugify_table_name (slugify_table_name x) = slugify_table_name x := by
  constructor
  · rw [normalize_header_mk x, normalize_header_mk (String.mk (normalizeHeaderL x.data)),
      string_data_mk]
    exact congrArg String.mk (normalizeHeaderL_eq_self (normalized_normalizeHeaderL x.data))
  · rw [slugify_table_name_mk x, slugify_table_name_mk (String.mk (slugifyTableNameL x.data)),
      string_data_mk]
    exact congrArg String.mk (slugifyTableNameL_eq_self (normalized_slugifyTableNameL x.data))

/-- Claim C7: for every input string, the outputs of `normalize_header` and
`slugify_table_name` are valid Identifiers — non-empty, only `[a-z0-9_]`
characters, not digit-led; an empty normalization result is replaced by the
fixed fallback token of the context (`"col"` / `"uploaded_csv"`) and a
digit-led result receives the fixed letter prefix of the context
(`c_` / `t_`). -/
theorem c7_outputs_valid_identifiers :
    (∀ x : String,
      validIdentifier (normalize_header x) ∧ validIdentifier (slugify_table_name x)) ∧
    normalize_header "" = "col" ∧ slugify_table_name "" = "uploaded_csv" ∧
    normalize_header "9a" = "c_9a" ∧ slugify_table_name "9a.csv" = "t_9a" := by
  refine ⟨fun x => ?_, ?_, ?_, ?_, ?_⟩
  · have h1 := normalized_normalizeHeaderL x.data
    have h2 := normalized_slugifyTableNameL x.data
    constructor
    · rw [validIdentifier, normalize_header_mk x, string_data_mk]
      exact ⟨h1.nonempty, h1.chars, h1.headNotDigit⟩
    · rw [validIdentifier, slugify_table_name_mk x, string_data_mk]
      exact ⟨h2.nonempty, h2.chars, h2.headNotDigit⟩
  · rw [normalize_header_mk]
    rfl
  · rw [slugify_table_name_mk]
    rfl
  · rw [normalize_header_mk]
    rfl
  · rw [slugify_table_name_mk]
    rfl

/-- Witness for C7 at a concrete input. -/
theorem c7_outputs_valid_identifiers_witness :
    validIdentifier (normalize_header "Mall Customers!") :=
  (c7_outputs_valid_identifiers.1 "Mall Customers!").1

-- ----------------------------
-- Resolver branch lemmas
-- ----------------------------

theorem choose_of_absent {cat : Catalog} {ns base : String} (cols : List String)
    (suffix : String) (h : (table_exists_and_columns cat ns base).1 = false) :
    choose_table_name_atomic cat ns base cols suffix = (base, "created_new_table") := by
  simp only [choose_table_name_atomic]
  rw [h]
  simp

theorem choose_of_match {cat : Catalog} {ns base : String} {cols C : List String}
    (suffix : String) (hex : table_exists_and_columns cat ns base = (true, C))
    (hm : columns_match C cols = true) :
    choose_table_name_atomic cat ns base cols suffix = (base, "matched_existing_table") := by
  simp only [choose_table_name_atomic]
  rw [hex]
  simp [hm]

theorem choose_of_mismatch {cat : Catalog} {ns base : String} {cols C : List String}
    (suffix : String) (hex : table_exists_and_columns cat ns base = (true, C))
    (hm : columns_match C cols = false) :
    choose_table_name_atomic cat ns base cols suffix =
      (base ++ "__" ++ suffix, "schema_mismatch_created_new_table") := by
  simp only [choose_table_name_atomic]
  rw [hex]
  simp [hm]

theorem columns_match_of_set_eq {cols C : List String}
    (hset : ∀ x : String, x ∈ cols ↔ x ∈ C) : columns_match C cols = true := by
  simp only [columns_match, Bool.and_eq_true, List.all_eq_true]
  constructor
  · intro x hx
    simpa [List.elem_iff] using (hset x).mpr hx
  · intro x hx
    simpa [List.elem_iff] using (hset x).mp hx

theorem columns_match_refl (cols : List String) : columns_match cols cols = true :=
  columns_match_of_set_eq (fun _ => Iff.rfl)

-- ----------------------------
-- Claim theorems: C3, C4
-- ----------------------------

/-- Claim C3: whenever the table `(namespace, baseName)` does not exist in
the catalog, the resolver returns decision `created_new_table` with
`finalName = baseName`, for every incoming column set (and any random
draw). -/
theorem c3_created_when_absent (cat : Catalog) (ns base : String)
    (cols : List String) (suffix : String) (h : hasTable cat ns base = false) :
    choose_table_name_atomic cat ns base cols suffix = (base, "created_new_table") :=
  choose_of_absent cols suffix h

/-- Witness for C3: concrete resolution against an empty catalog. -/
theorem c3_created_when_absent_witness :
    hasTable [] "csv_demo" "mall_customers" = false ∧
    choose_table_name_atomic [] "csv_demo" "mall_customers" ["a", "b"] "deadbeef" =
      ("mall_customers", "created_new_table") :=
  ⟨by decide, c3_created_when_absent [] "csv_demo" "mall_customers" ["a", "b"] "deadbeef"
    (by decide)⟩

/-- Claim C4: if the table exists with column list `C` and the incoming
column list has the same set of elements (order and duplicates are
irrelevant), the resolver returns `matched_existing_table` with
`finalName = baseName`. -/
theorem c4_matched_on_set_equal (cat : Catalog) (ns base : String)
    (cols C : List String) (suffix : String)
    (hex : table_exists_and_columns cat ns base = (true, C))
    (hset : ∀ x : String, x ∈ cols ↔ x ∈ C) :
    choose_table_name_atomic cat ns base cols suffix = (base, "matched_existing_table") :=
  choose_of_match suffix hex (columns_match_of_set_eq hset)

/-- Witness for C4: reordered, duplicated incoming columns still match. -/
theorem c4_matched_on_set_equal_witness :
    choose_table_name_atomic [(("csv_demo", "t"), ["a", "b"])] "csv_demo" "t"
      ["b", "a", "a"] "deadbeef" = ("t", "matched_existing_table") :=
  c4_matched_on_set_equal [(("csv_demo", "t"), ["a", "b"])] "csv_demo" "t"
    ["b", "a", "a"] ["a", "b"] "deadbeef" (by decide) (by intro x; simp; tauto)

-- ----------------------------
-- Claim theorems: C1 (corrected)
-- ----------------------------

/-- Counterexample to claim C1 as stated: in the schema-mismatch branch the
final name embeds the per-call random draw (`uuid.uuid4().hex[:8]`), so two
calls against the same unchanged catalog that draw different suffixes
return different final names. -/
theorem c1_counterexample :
    choose_table_name_atomic [(("csv_demo", "t"), ["a"])] "csv_demo" "t" ["b"] "aaaaaaaa" ≠
    choose_table_name_atomic [(("csv_demo", "t"), ["a"])] "csv_demo" "t" ["b"] "bbbbbbbb" := by
  decide

/-- Claim C1 amended: against the same unchanged catalog, two resolver calls
always return the same decision code; the final name is also the same except
in the schema-mismatch branch, where it equals the per-call random draw
appended to `baseName ++ "__"` (so both calls agree whenever they draw the
same suffix). -/
theorem c1_deterministic_decision (cat : Catalog) (ns base : String)
    (cols : List String) (s1 s2 : String) :
    (choose_table_name_atomic cat ns base cols s1).2 =
      (choose_table_name_atomic cat ns base cols s2).2 ∧
    (hasTable cat ns base = false ∨
        columns_match (table_exists_and_columns cat ns base).2 cols = true →
      choose_table_name_atomic cat ns base cols s1 =
        choose_table_name_atomic cat ns base cols s2) ∧
    (s1 = s2 →
      choose_table_name_atomic cat ns base cols s1 =
        choose_table_name_atomic cat ns base cols s2) := by
  rcases hq : table_exists_and_columns cat ns base with ⟨e, C⟩
  cases e with
  | false =>
    rw [choose_of_absent cols s1 (by rw [hq]), choose_of_absent cols s2 (by rw [hq])]
    exact ⟨rfl, fun _ => rfl, fun _ => rfl⟩
  | true =>
    by_cases hm : columns_match C cols = true
    · rw [choose_of_match s1 hq hm, choose_of_match s2 hq hm]
      exact ⟨rfl, fun _ => rfl, fun _ => rfl⟩
    · have hm2 : columns_match C cols = false := Bool.not_eq_true _ ▸ hm
      rw [choose_of_mismatch s1 hq hm2, choose_of_mismatch s2 hq hm2]
      refine ⟨rfl, ?_, ?_⟩
      · intro hcase
        rcases hcase with h | h
        · rw [hasTable, hq] at h
          exact absurd h (by simp)
        · exact absurd h hm
      · intro hs
        rw [hs]

/-- Witness for C1 amended: two different draws still agree entirely when
the table does not exist. -/
theorem c1_deterministic_decision_witness :
    choose_table_name_atomic [] "csv_demo" "t" ["a"] "aaaaaaaa" =
    choose_table_name_atomic [] "csv_demo" "t" ["a"] "bbbbbbbb" :=
  (c1_deterministic_decision [] "csv_demo" "t" ["a"] "aaaaaaaa" "bbbbbbbb").2.1
    (Or.inl (by decide))

-- ----------------------------
-- Claim theorems: C2 (corrected)
-- ----------------------------

/-- Counterexample to claim C2 as stated: the mismatch branch never
re-checks the catalog for the minted name, so when the catalog already
contains `baseName ++ "__" ++ <the drawn suffix>`, the returned `finalName`
does already exist in the catalog. -/
theorem c2_counterexample :
    (choose_table_name_atomic
        [(("csv_demo", "t"), ["a"]), (("csv_demo", "t__aaaaaaaa"), ["a"])]
        "csv_demo" "t" ["b"] "aaaaaaaa").2 = "schema_mismatch_created_new_table" ∧
    isLowerHex8 "aaaaaaaa" = true ∧
    hasTable [(("csv_demo", "t"), ["a"]), (("csv_demo", "t__aaaaaaaa"), ["a"])] "csv_demo"
      (choose_table_name_atomic
        [(("csv_demo", "t"), ["a"]), (("csv_demo", "t__aaaaaaaa"), ["a"])]
        "csv_demo" "t" ["b"] "aaaaaaaa").1 = true := by
  refine ⟨?_, by decide, ?_⟩ <;> decide

/-- Claim C2 amended: if the table exists with columns `C` and the incoming
column set differs from `C`, the resolver (whose decision takes no
write-mode input, so it is the same for replace and append) returns decision
`schema_mismatch_created_new_table` with
`finalName = baseName ++ "__" ++ suffix` for the 8-character lowercase-hex
random draw `suffix`; the name is not re-checked against the catalog, so it
is guaranteed not to exist only when `baseName ++ "__" ++ suffix` is not
already a table. -/
theorem c2_mismatch_forks (cat : Catalog) (ns base : String) (cols C : List String)
    (suffix : String) (hex : table_exists_and_columns cat ns base = (true, C))
    (hm : columns_match C cols = false) (hhex : isLowerHex8 suffix = true) :
    (choose_table_name_atomic cat ns base cols suffix).2 =
      "schema_mismatch_created_new_table" ∧
    (choose_table_name_atomic cat ns base cols suffix).1 = base ++ "__" ++ suffix ∧
    (∃ tail : String, isLowerHex8 tail = true ∧
      (choose_table_name_atomic cat ns base cols suffix).1 = (base ++ "__") ++ tail) ∧
    (hasTable cat ns (base ++ "__" ++ suffix) = false →
      hasTable cat ns (choose_table_name_atomic cat ns base cols suffix).1 = false) := by
  rw [choose_of_mismatch suffix hex hm]
  exact ⟨rfl, rfl, ⟨suffix, hhex, rfl⟩, fun h => h⟩

/-- Witness for C2 amended at a concrete mismatching catalog. -/
theorem c2_mismatch_forks_witness :
    (choose_table_name_atomic [(("csv_demo", "t"), ["a"])] "csv_demo" "t" ["b"]
        "deadbeef").2 = "schema_mismatch_created_new_table" ∧
    (choose_table_name_atomic [(("csv_demo", "t"), ["a"])] "csv_demo" "t" ["b"]
        "deadbeef").1 = "t" ++ "__" ++ "deadbeef" ∧
    (∃ tail : String, isLowerHex8 tail = true ∧
      (choose_table_name_atomic [(("csv_demo", "t"), ["a"])] "csv_demo" "t" ["b"]
        "deadbeef").1 = ("t" ++ "__") ++ tail) ∧
    (hasTable [(("csv_demo", "t"), ["a"])] "csv_demo" ("t" ++ "__" ++ "deadbeef") = false →
      hasTable [(("csv_demo", "t"), ["a"])] "csv_demo"
        (choose_table_name_atomic [(("csv_demo", "t"), ["a"])] "csv_demo" "t" ["b"]
          "deadbeef").1 = false) :=
  c2_mismatch_forks [(("csv_demo", "t"), ["a"])] "csv_demo" "t" ["b"] ["a"] "deadbeef"
    (by decide) (by decide) (by decide)

-- ----------------------------
-- Claim theorems: C8
-- ----------------------------

/-- Claim C8: `decode_csv_bytes` is total — for every byte string it returns
a decoded text and never fails: it tries `utf-8-sig`, `utf-8`, `latin-1` in
that order, and since `latin-1` accepts every byte, one of the attempted
encodings always succeeds and its result is returned (the lossy
`errors="replace"` fallback is a last resort that is never required). -/
theorem c8_decode_total (b : List Nat) :
    (latin1Decode b).isSome = true ∧
    ∃ s : List Char, decode_csv_bytes b = s ∧
      (utf8SigDecode b = some s ∨ utf8DecodeList b = some s ∨ latin1Decode b = some s) := by
  refine ⟨rfl, ?_⟩
  cases h1 : utf8SigDecode b with
  | some s => exact ⟨s, by simp [decode_csv_bytes, h1], Or.inl rfl⟩
  | none =>
    cases h2 : utf8DecodeList b with
    | some s => exact ⟨s, by simp [decode_csv_bytes, h1, h2], Or.inr (Or.inl rfl)⟩
    | none =>
      exact ⟨b.map (fun n => Char.ofNat (n % 256)),
        by simp [decode_csv_bytes, h1, h2, latin1Decode], Or.inr (Or.inr rfl)⟩

-- ----------------------------
-- Claim theorems: C10
-- ----------------------------

/-- Claim C10: a non-empty explicit base-table-name override is normalized
by the column normalizer `normalize_header`, not the table normalizer: the
digit-led override `"123"` becomes `"c_123"` (not `"t_123"`), an override
normalizing to empty becomes `"col"` (not `"uploaded_csv"`); only a missing
or empty override falls back to `slugify_table_name` on the filename. -/
theorem c10_override_uses_column_normalizer :
    (∀ (t f : String), t ≠ "" → chooseBaseName (some t) f = normalize_header t) ∧
    (∀ f : String, chooseBaseName none f = slugify_table_name f ∧
      chooseBaseName (some "") f = slugify_table_name f) ∧
    chooseBaseName (some "123") "data.csv" = "c_123" ∧
    slugify_table_name "123" = "t_123" ∧
    chooseBaseName (some "!!!") "data.csv" = "col" ∧
    slugify_table_name "!!!" = "uploaded_csv" := by
  refine ⟨?_, ?_, ?_, ?_, ?_, ?_⟩
  · intro t f ht
    simp only [chooseBaseName]
    rw [if_neg ht]
  · intro f
    exact ⟨rfl, by simp [chooseBaseName]⟩
  · simp only [chooseBaseName]
    rw [if_neg (by decide), normalize_header_mk]
    rfl
  · rw [slugify_table_name_mk]
    rfl
  · simp only [chooseBaseName]
    rw [if_neg (by decide), normalize_header_mk]
    rfl
  · rw [slugify_table_name_mk]
    rfl

/-- Witness for C10: the digit-led override goes through the column
normalizer. -/
theorem c10_override_uses_column_normalizer_witness :
    chooseBaseName (some "123") "mall.csv" = normalize_header "123" :=
  c10_override_uses_column_normalizer.1 "123" "mall.csv" (by decide)

-- ----------------------------
-- Ingestion lemmas for C5
-- ----------------------------

theorem runPipeline_establishes (cat : Catalog) (ns base : String)
    (cols : List String) (wd : String)
    (h : table_exists_and_columns cat ns base = (true, cols) ∨
      hasTable cat ns base = false) :
    table_exists_and_columns (runPipeline cat ns base cols wd) ns base = (true, cols) := by
  unfold runPipeline
  by_cases hw : (wd == "replace") = true
  · rw [if_pos hw]
    simp [table_exists_and_columns, List.find?_cons]
  · rw [if_neg hw]
    rcases h with h | h
    · rw [if_pos]
      · exact h
      · rw [hasTable, h]
    · rw [if_neg (by rw [h]; exact Bool.false_ne_true)]
      simp [table_exists_and_columns, List.find?_cons]

theorem serializedRun_matched (ns base : String) (cols : List String) (wd : String) :
    ∀ (n : Nat) (cat : Catalog) (suffixes : Nat → String),
      table_exists_and_columns cat ns base = (true, cols) →
      serializedRun ns base cols wd cat n suffixes =
        List.replicate n "matched_existing_table" := by
  intro n
  induction n with
  | zero => intro cat suffixes _; rfl
  | succ m ih =>
    intro cat suffixes h
    show (choose_table_name_atomic cat ns base cols (suffixes 0)).2 ::
      serializedRun ns base cols wd
        (runPipeline cat ns
          (choose_table_name_atomic cat ns base cols (suffixes 0)).1 cols wd)
        m (fun i => suffixes (i + 1)) = _
    rw [choose_of_match (suffixes 0) h (columns_match_refl cols)]
    rw [ih (runPipeline cat ns base cols wd) (fun i => suffixes (i + 1))
      (runPipeline_establishes cat ns base cols wd (Or.inl h))]
    rfl

-- ----------------------------
-- Claim theorems: C5 (corrected)
-- ----------------------------

/-- Counterexample to claim C5 as stated: the advisory lock serializes the
resolutions only — it is released before ingestion creates the table. In the
interleaving where both requests resolve before either ingests, both
resolutions see an absent table and both return `created_new_table`. -/
theorem c5_counterexample :
    ((runSchedule "csv_demo" "t" ["a"] "append" (fun _ => "aaaaaaaa") []
        [RState.initial, RState.initial]
        [(0, true), (1, true), (0, false), (1, false)]).2.map decisionOf) =
      [some "created_new_table", some "created_new_table"] := by
  decide

/-- Claim C5 amended: resolutions for one `(namespace, baseName)` key are
serialized by the advisory lock, but table creation happens during ingestion
after the lock is released. Under the fully serialized schedule — each
request's ingestion completes before the next resolution starts — N requests
with identical inputs against an initially absent table produce exactly one
`created_new_table` outcome followed by N−1 `matched_existing_table`
outcomes; two resolutions that both run before either ingestion both return
`created_new_table`. -/
theorem c5_serialized_one_creator (cat : Catalog) (ns base : String)
    (cols : List String) (wd : String) (n : Nat) (suffixes : Nat → String)
    (h : hasTable cat ns base = false) :
    serializedRun ns base cols wd cat (n + 1) suffixes =
      "created_new_table" :: List.replicate n "matched_existing_table" := by
  show (choose_table_name_atomic cat ns base cols (suffixes 0)).2 ::
    serializedRun ns base cols wd
      (runPipeline cat ns (choose_table_name_atomic cat ns base cols (suffixes 0)).1 cols wd)
      n (fun i => suffixes (i + 1)) = _
  rw [choose_of_absent cols (suffixes 0) h]
  rw [serializedRun_matched ns base cols wd n (runPipeline cat ns base cols wd)
    (fun i => suffixes (i + 1))
    (runPipeline_establishes cat ns base cols wd (Or.inr h))]

/-- Witness for C5 amended: three serialized uploads, one creator. -/
theorem c5_serialized_one_creator_witness :
    serializedRun "csv_demo" "t" ["a"] "append" [] 3 (fun _ => "aaaaaaaa") =
      "created_new_table" :: List.replicate 2 "matched_existing_table" :=
  c5_serialized_one_creator [] "csv_demo" "t" ["a"] "append" 2 (fun _ => "aaaaaaaa")
    (by decide)

-- ----------------------------
-- Endpoint evaluation lemmas
-- ----------------------------

theorem load_csv_none (cat : Catalog) (content : List Nat) (mode : String)
    (table : Option String) (db : String) (suffix : String) :
    load_csv cat none content mode table db suffix =
      (Except.error (400, "Please upload a .csv file"), cat) := rfl

theorem load_csv_badname (cat : Catalog) {fn : String} (content : List Nat) (mode : String)
    (table : Option String) (db : String) (suffix : String)
    (hb : badFilename (some fn) = true) :
    load_csv cat (some fn) content mode table db suffix =
      (Except.error (400, "Please upload a .csv file"), cat) := by
  have hb2 : (fn = "" || !(List.isSuffixOf ".csv".data (pyLower fn.data))) = true := hb
  simp only [load_csv]
  rw [if_pos hb2]

theorem load_csv_empty (cat : Catalog) {fn : String} {content : List Nat} (mode : String)
    (table : Option String) (db : String) (suffix : String)
    (hb : badFilename (some fn) = false) (hc : content.isEmpty = true) :
    load_csv cat (some fn) content mode table db suffix =
      (Except.error (400, "Empty file"), cat) := by
  have hb2 : (fn = "" || !(List.isSuffixOf ".csv".data (pyLower fn.data))) = false := hb
  simp only [load_csv]
  rw [if_neg (by rw [hb2]; exact Bool.false_ne_true), if_pos hc]

theorem load_csv_noheader (cat : Catalog) {fn : String} {content : List Nat} (mode : String)
    (table : Option String) (db : String) (suffix : String)
    (hb : badFilename (some fn) = false) (hc : content.isEmpty = false)
    (hh : (extract_normalized_headers content).isEmpty = true) :
    load_csv cat (some fn) content mode table db suffix =
      (Except.error (400, "CSV has no header row"), cat) := by
  have hb2 : (fn = "" || !(List.isSuffixOf ".csv".data (pyLower fn.data))) = false := hb
  simp only [load_csv]
  rw [if_neg (by rw [hb2]; exact Bool.false_ne_true),
    if_neg (by rw [hc]; exact Bool.false_ne_true), if_pos hh]

theorem load_csv_ok (cat : Catalog) {fn : String} {content : List Nat} (mode : String)
    (table : Option String) (db : String) (suffix : String)
    (hb : badFilename (some fn) = false) (hc : content.isEmpty = false)
    (hh : (extract_normalized_headers content).isEmpty = false) :
    load_csv cat (some fn) content mode table db suffix =
      (Except.ok ⟨"Loaded successfully", normalize_header db, chooseBaseName table fn,
        (choose_table_name_atomic cat (normalize_header db) (chooseBaseName table fn)
          (extract_normalized_headers content) suffix).1,
        (choose_table_name_atomic cat (normalize_header db) (chooseBaseName table fn)
          (extract_normalized_headers content) suffix).2, mode,
        extract_normalized_headers content⟩,
      runPipeline cat (normalize_header db)
        (choose_table_name_atomic cat (normalize_header db) (chooseBaseName table fn)
          (extract_normalized_headers content) suffix).1
        (extract_normalized_headers content)
        (if mode = "replace" then "replace" else "append")) := by
  have hb2 : (fn = "" || !(List.isSuffixOf ".csv".data (pyLower fn.data))) = false := hb
  simp only [load_csv]
  rw [if_neg (by rw [hb2]; exact Bool.false_ne_true),
    if_neg (by rw [hc]; exact Bool.false_ne_true),
    if_neg (by rw [hh]; exact Bool.false_ne_true)]

-- ----------------------------
-- Claim theorems: C9
-- ----------------------------

/-- Claim C9: the upload endpoint fails with a 400 validation error exactly
when the filename is missing or does not end in `.csv`, or the payload is
empty, or header extraction yields zero normalized header fields; in those
cases it fails before resolution and ingestion, so the catalog is unchanged
and the outcome does not depend on the catalog or on the resolver's random
draw. -/
theorem c9_validation_errors (cat : Catalog) (filename : Option String)
    (content : List Nat) (mode : String) (table : Option String) (db : String)
    (suffix : String) :
    ((∃ d, (load_csv cat filename content mode table db suffix).1 =
        Except.error (400, d)) ↔
      badFilename filename = true ∨ content = [] ∨
        extract_normalized_headers content = []) ∧
    (badFilename filename = true ∨ content = [] ∨
        extract_normalized_headers content = [] →
      (load_csv cat filename content mode table db suffix).2 = cat ∧
      ∀ (cat2 : Catalog) (suffix2 : String),
        (load_csv cat2 filename content mode table db suffix2).1 =
          (load_csv cat filename content mode table db suffix).1) := by
  cases filename with
  | none =>
    refine ⟨⟨fun _ => Or.inl rfl, fun _ => ⟨"Please upload a .csv file", ?_⟩⟩, fun _ =>
      ⟨?_, fun cat2 suffix2 => ?_⟩⟩
    · rw [load_csv_none]
    · rw [load_csv_none]
    · rw [load_csv_none, load_csv_none]
  | some fn =>
    by_cases hb : badFilename (some fn) = true
    · refine ⟨⟨fun _ => Or.inl hb, fun _ => ⟨"Please upload a .csv file", ?_⟩⟩, fun _ =>
        ⟨?_, fun cat2 suffix2 => ?_⟩⟩
      · rw [load_csv_badname cat content mode table db suffix hb]
      · rw [load_csv_badname cat content mode table db suffix hb]
      · rw [load_csv_badname cat content mode table db suffix hb,
          load_csv_badname cat2 content mode table db suffix2 hb]
    · have hbf : badFilename (some fn) = false := Bool.not_eq_true _ ▸ hb
      by_cases hc : content.isEmpty = true
      · have hc2 : content = [] := List.isEmpty_iff.mp hc
        refine ⟨⟨fun _ => Or.inr (Or.inl hc2), fun _ => ⟨"Empty file", ?_⟩⟩, fun _ =>
          ⟨?_, fun cat2 suffix2 => ?_⟩⟩
        · rw [load_csv_empty cat mode table db suffix hbf hc]
        · rw [load_csv_empty cat mode table db suffix hbf hc]
        · rw [load_csv_empty cat mode table db suffix hbf hc,
            load_csv_empty cat2 mode table db suffix2 hbf hc]
      · have hcf : content.isEmpty = false := Bool.not_eq_true _ ▸ hc
        by_cases hh : (extract_normalized_headers content).isEmpty = true
        · have hh2 : extract_normalized_headers content = [] := List.isEmpty_iff.mp hh
          refine ⟨⟨fun _ => Or.inr (Or.inr hh2), fun _ => ⟨"CSV has no header row", ?_⟩⟩,
            fun _ => ⟨?_, fun cat2 suffix2 => ?_⟩⟩
          · rw [load_csv_noheader cat mode table db suffix hbf hcf hh]
          · rw [load_csv_noheader cat mode table db suffix hbf hcf hh]
          · rw [load_csv_noheader cat mode table db suffix hbf hcf hh,
              load_csv_noheader cat2 mode table db suffix2 hbf hcf hh]
        · have hhf : (extract_normalized_headers content).isEmpty = false :=
            Bool.not_eq_true _ ▸ hh
          have hnone : ¬(badFilename (some fn) = true ∨ content = [] ∨
              extract_normalized_headers content = []) := by
            intro hcase
            rcases hcase with h | h | h
            · rw [h] at hbf; exact absurd hbf (by simp)
            · rw [h] at hcf; exact absurd hcf (by simp)
            · rw [h] at hhf; exact absurd hhf (by simp)
          refine ⟨⟨?_, fun hcase => absurd hcase hnone⟩, fun hcase => absurd hcase hnone⟩
          intro hd
          obtain ⟨d, hd⟩ := hd
          rw [load_csv_ok cat mode table db suffix hbf hcf hhf] at hd
          exact Except.noConfusion hd

/-- Witness for C9: a non-CSV filename is rejected with a 400 error and the
catalog is untouched. -/
theorem c9_validation_errors_witness :
    (∃ d, (load_csv [] (some "data.txt") [97] "replace" none "csv_demo" "aaaaaaaa").1 =
      Except.error (400, d)) ∧
    (load_csv [] (some "data.txt") [97] "replace" none "csv_demo" "aaaaaaaa").2 = [] :=
  ⟨(c9_validation_errors [] (some "data.txt") [97] "replace" none "csv_demo"
      "aaaaaaaa").1.mpr (Or.inl (by decide)),
   ((c9_validation_errors [] (some "data.txt") [97] "replace" none "csv_demo"
      "aaaaaaaa").2 (Or.inl (by decide))).1⟩
